import Mathlib

/- Shallow embedding of the scene timeline pipeline of zip-to-video-studio.

   Conventions of the embedding:
   - JS numbers are modelled as exact rationals; byte blobs as lists of
     naturals; JS strings as Lean strings, lowered to character lists for
     the case-insensitive comparisons the code performs.
   - The repository file src/utils/configParser.ts contains two concatenated
     revisions of the same module; the embedding follows the first revision,
     which is the revision the claims cite (audio-anchored cue distribution).
   - Browser collaborators (media duration probing, subtitle text parsing,
     the encoder) are passed in as explicit function parameters; a duration
     probe returns Except, mirroring a promise that resolves or rejects.
-/

/-- File kind tag, mirroring the type field of ExtractedFile in
    src/types/project.ts. -/
inductive FileType
  | video
  | audio
  | subtitle
  | sfx
  | json
  | unknown
  deriving DecidableEq

/-- ExtractedFile from src/types/project.ts: name, original archive path,
    byte data and detected kind. -/
structure ExtractedFile where
  name : String
  path : String
  data : List Nat
  type : FileType
  deriving DecidableEq

/-- SceneConfig from src/types/project.ts: scene id plus optional free-text
    references for the three channels. -/
structure SceneConfig where
  id : Int
  video : Option String := none
  audio : Option String := none
  subtitle : Option String := none
  deriving DecidableEq

/-- ProjectConfig from src/types/project.ts. -/
structure ProjectConfig where
  scenes : List SceneConfig
  deriving DecidableEq

/-- SubtitleCue from src/types/project.ts. -/
structure SubtitleCue where
  startTime : ℚ
  endTime : ℚ
  text : String
  isRTL : Bool
  deriving DecidableEq

/-- ProcessedScene from src/types/project.ts. The object URL fields are not
    modelled: a URL is created exactly when the corresponding file is bound,
    so presence of videoFile stands for presence of videoUrl. -/
structure ProcessedScene where
  id : Int
  videoFile : Option ExtractedFile := none
  audioFile : Option ExtractedFile := none
  subtitleFile : Option ExtractedFile := none
  subtitleCues : Option (List SubtitleCue) := none
  duration : Option ℚ := none
  audioDuration : Option ℚ := none
  deriving DecidableEq

/-- Lowercasing of a JS string, as a character list
    (String.prototype.toLowerCase, ASCII range). -/
def lowerChars (s : String) : List Char :=
  s.data.map Char.toLower

/-- Does the character list start with the given pattern list. -/
def listStartsWith : List Char → List Char → Bool
  | [], _ => true
  | _ :: _, [] => false
  | p :: ps, c :: cs => p = c && listStartsWith ps cs

/-- JS String.prototype.includes: the haystack contains the needle as a
    contiguous substring. -/
def strIncludes (hay needle : List Char) : Bool :=
  hay.tails.any (listStartsWith needle)

/-- JS String.prototype.lastIndexOf for a single character: greatest index
    of an occurrence, or -1. -/
def lastIndexOfChar (c : Char) (l : List Char) : Int :=
  match List.findIdx? (fun x => x = c) l.reverse with
  | some j => (l.length : Int) - 1 - j
  | none => -1

/-- getFileName from src/utils/fileDetection.ts: strip everything up to the
    last slash or backslash. -/
def getFileName (filepath : String) : String :=
  let l := filepath.data
  let lastSlash := max (lastIndexOfChar '/' l) (lastIndexOfChar '\\' l)
  if lastSlash ≠ -1 then String.mk (l.drop (lastSlash + 1).toNat) else filepath

/-- getBaseName from src/utils/fileDetection.ts: strip the directory part,
    then strip the extension after the last dot. -/
def getBaseName (filename : String) : String :=
  let l := filename.data
  let lastSlash := max (lastIndexOfChar '/' l) (lastIndexOfChar '\\' l)
  let name := if lastSlash ≠ -1 then l.drop (lastSlash + 1).toNat else l
  let lastDot := lastIndexOfChar '.' name
  if lastDot ≠ -1 then String.mk (name.take lastDot.toNat) else String.mk name

/-- findFileByName from src/utils/fileDetection.ts: exact terminal filename
    match, then extension-stripped match, then substring containment in
    either direction, all case-insensitive, each stage scanning the pool in
    order. An empty target name (falsy in JS) matches nothing. -/
def findFileByName (files : List ExtractedFile) (targetName : String) :
    Option ExtractedFile :=
  if targetName = "" then none
  else
    let targetBase := lowerChars (getBaseName targetName)
    let targetFull := lowerChars (getFileName targetName)
    match files.find? (fun f => lowerChars (getFileName f.path) = targetFull) with
    | some f => some f
    | none =>
      match files.find? (fun f => lowerChars (getBaseName f.path) = targetBase) with
      | some f => some f
      | none =>
        files.find? (fun f =>
          strIncludes (lowerChars (getFileName f.path)) targetBase ||
            strIncludes targetBase (lowerChars (getBaseName f.path)))

/-- The whitespace class of a JS regular expression, restricted to the ASCII
    characters that can occur in archive entry names. -/
def isJsSpace (c : Char) : Bool :=
  c = ' ' || c = '\t' || c = '\n' || c = '\r' || c = '\x0b' || c = '\x0c'

/-- One character of the bracket class of the scene-number patterns. -/
def isSep (c : Char) : Bool :=
  c = '_' || c = '-' || isJsSpace c

/-- The decimal rendering of a scene number, as interpolated into the
    regular expressions of findFileBySceneNumber. -/
def sceneDigits (sceneNumber : Int) : List Char :=
  (toString sceneNumber).data

/-- The digits of the scene number occur here and the next character, if
    any, is not a digit (the negative lookahead of the first pattern). -/
def digitsHereNotFollowed (ds l : List Char) : Bool :=
  listStartsWith ds l && (match l.drop ds.length with
    | [] => true
    | c :: _ => !c.isDigit)

/-- The first scene-number pattern matched at this position:
    the literal scene, an optional separator, the id digits, and no digit
    directly after them. -/
def scenePatternAt (ds l : List Char) : Bool :=
  listStartsWith ['s', 'c', 'e', 'n', 'e'] l &&
    (let rest := l.drop 5
     digitsHereNotFollowed ds rest ||
       (match rest with
        | c :: rest2 => isSep c && digitsHereNotFollowed ds rest2
        | [] => false))

/-- First pattern of findFileBySceneNumber, searched anywhere in the
    lowercased filename. -/
def matchesScenePattern (ds l : List Char) : Bool :=
  l.tails.any (scenePatternAt ds)

/-- Second pattern of findFileBySceneNumber: the id digits at the start of
    the filename, followed by a separator. -/
def matchesLeadingNumber (ds l : List Char) : Bool :=
  listStartsWith ds l && (match l.drop ds.length with
    | c :: _ => isSep c
    | [] => false)

/-- Third pattern of findFileBySceneNumber matched at this position: a
    separator, the id digits, another separator. -/
def sepNumberSepAt (ds : List Char) : List Char → Bool
  | [] => false
  | c :: rest =>
    isSep c && listStartsWith ds rest && (match rest.drop ds.length with
      | c2 :: _ => isSep c2
      | [] => false)

/-- Third pattern of findFileBySceneNumber, searched anywhere in the
    lowercased filename. -/
def matchesSepNumberSep (ds l : List Char) : Bool :=
  l.tails.any (sepNumberSepAt ds)

/-- Disjunction of the three positional patterns on the lowercased display
    name of a file. The source tests the patterns in priority order per
    file, returning the file when any of them matches, so per file the
    order does not affect the selection. -/
def matchesSceneNumber (sceneNumber : Int) (file : ExtractedFile) : Bool :=
  let ds := sceneDigits sceneNumber
  let fileName := lowerChars file.name
  matchesScenePattern ds fileName || matchesLeadingNumber ds fileName ||
    matchesSepNumberSep ds fileName

/-- findFileBySceneNumber from src/utils/configParser.ts: first file, in
    pool order, whose lowercased name matches one of the three positional
    patterns. -/
def findFileBySceneNumber (files : List ExtractedFile) (sceneNumber : Int) :
    Option ExtractedFile :=
  files.find? (matchesSceneNumber sceneNumber)

/-- The buckets returned by categorizeFiles in src/utils/fileDetection.ts. -/
structure CategorizedFiles where
  videos : List ExtractedFile
  audios : List ExtractedFile
  subtitles : List ExtractedFile
  jsonFiles : List ExtractedFile
  sfx : List ExtractedFile
  deriving DecidableEq

/-- An audio file is diverted to the sfx bucket when its lowercased path
    contains sfx or effect. -/
def isSfxPath (path : String) : Bool :=
  strIncludes (lowerChars path) ['s', 'f', 'x'] ||
    strIncludes (lowerChars path) ['e', 'f', 'f', 'e', 'c', 't']

/-- categorizeFiles from src/utils/fileDetection.ts. Files typed sfx or
    unknown fall through the switch and land in no bucket. -/
def categorizeFiles : List ExtractedFile → CategorizedFiles
  | [] => ⟨[], [], [], [], []⟩
  | f :: rest =>
    let r := categorizeFiles rest
    match f.type with
    | .video => { r with videos := f :: r.videos }
    | .audio =>
      if isSfxPath f.path then { r with sfx := f :: r.sfx }
      else { r with audios := f :: r.audios }
    | .subtitle => { r with subtitles := f :: r.subtitles }
    | .json => { r with jsonFiles := f :: r.jsonFiles }
    | .sfx => r
    | .unknown => r

/-- Per-channel selection of the first pass of matchFilesToScenes: a named
    reference is tried through findFileByName, and when that yields nothing
    (or no reference was given) the positional fallback runs. -/
def selectChannelFile (pool : List ExtractedFile) (ref : Option String)
    (sceneId : Int) : Option ExtractedFile :=
  match (match ref with
         | some r => findFileByName pool r
         | none => none) with
  | some f => some f
  | none => findFileBySceneNumber pool sceneId

/-- One scene of the first pass of matchFilesToScenes from
    src/utils/configParser.ts: bind video and audio, and bind and parse a
    per-scene subtitle file only when no global cue list was supplied.
    parseSubs stands for the external subtitle text parser. -/
def resolveScene (cat : CategorizedFiles)
    (parseSubs : ExtractedFile → List SubtitleCue) (hasGlobalCues : Bool)
    (scene : SceneConfig) : ProcessedScene :=
  let videoFile := selectChannelFile cat.videos scene.video scene.id
  let audioFile := selectChannelFile cat.audios scene.audio scene.id
  if hasGlobalCues then
    { id := scene.id, videoFile := videoFile, audioFile := audioFile }
  else
    let subtitleFile := selectChannelFile cat.subtitles scene.subtitle scene.id
    { id := scene.id, videoFile := videoFile, audioFile := audioFile,
      subtitleFile := subtitleFile,
      subtitleCues := subtitleFile.map parseSubs }

/-- Promise.all over fallible probes: succeeds with all results exactly when
    every probe succeeds, and rejects when any probe rejects. Which of
    several rejections is surfaced first in JS depends on settlement order;
    the embedding surfaces the first in list order, and no claim depends on
    the choice. -/
def exceptMapAll {α β : Type} (f : α → Except String β) :
    List α → Except String (List β)
  | [] => .ok []
  | x :: xs =>
    match f x with
    | .error e => .error e
    | .ok y =>
      match exceptMapAll f xs with
      | .error e => .error e
      | .ok ys => .ok (y :: ys)

/-- Second pass of matchFilesToScenes: probe the video duration of every
    scene with a bound video (0 without one), probe the audio duration of
    every scene with bound audio (0 without one), and write both onto the
    scene. The probes are the external media-metadata loaders
    getVideoDuration and getAudioDuration, which reject on a media error
    event; the source attaches no rejection handler, so the joined promise
    rejects as soon as any probe rejects. -/
def measureDurations (videoProbe audioProbe : ExtractedFile → Except String ℚ)
    (scenes : List ProcessedScene) : Except String (List ProcessedScene) :=
  match exceptMapAll (fun s =>
      match s.videoFile with
      | some f => videoProbe f
      | none => .ok 0) scenes with
  | .error e => .error e
  | .ok videoDurations =>
    match exceptMapAll (fun s =>
        match s.audioFile with
        | some f => audioProbe f
        | none => .ok 0) scenes with
    | .error e => .error e
    | .ok audioDurations =>
      .ok ((scenes.zip (videoDurations.zip audioDurations)).map
        (fun p => { p.1 with duration := some p.2.1,
                             audioDuration := some p.2.2 }))

/-- The effective channel duration of the cue-distribution pass, line 116 of
    src/utils/configParser.ts: scene.audioDuration ?? scene.duration ?? 0.
    The JS nullish-coalescing operator falls through only on a missing
    value, never on 0. -/
def effectiveSceneDuration (s : ProcessedScene) : ℚ :=
  s.audioDuration.getD (s.duration.getD 0)

/-- Remap a cue to scene-relative time by subtracting the window start from
    both endpoints. -/
def shiftCue (cursor : ℚ) (c : SubtitleCue) : SubtitleCue :=
  { c with startTime := c.startTime - cursor, endTime := c.endTime - cursor }

/-- Membership test of the cue filter: the cue start lies in the half-open
    window of width d starting at the cursor. Only startTime is tested. -/
def cueInWindow (cursor d : ℚ) (c : SubtitleCue) : Bool :=
  decide (cursor ≤ c.startTime ∧ c.startTime < cursor + d)

/-- The cue list a window receives: the source-order filter of the shared
    cue list by window membership, each retained cue shifted by the window
    start (endTime is shifted, not clamped). -/
def windowCues (allCues : List SubtitleCue) (cursor d : ℚ) :
    List SubtitleCue :=
  (allCues.filter (cueInWindow cursor d)).map (shiftCue cursor)

/-- Third pass of matchFilesToScenes, lines 110-142 of
    src/utils/configParser.ts: walk the scenes in list order keeping the
    audio timeline cursor; a scene with positive effective duration receives
    the cues of its window and advances the cursor by that duration, any
    other scene is left untouched and the cursor carries over. -/
def distributeCues (allCues : List SubtitleCue) (cursor : ℚ) :
    List ProcessedScene → List ProcessedScene
  | [] => []
  | scene :: rest =>
    let sceneAudioDuration := effectiveSceneDuration scene
    if 0 < sceneAudioDuration then
      let sceneEnd := cursor + sceneAudioDuration
      let sceneCues := windowCues allCues cursor sceneAudioDuration
      { scene with subtitleCues := some sceneCues } ::
        distributeCues allCues sceneEnd rest
    else
      scene :: distributeCues allCues cursor rest

/-- matchFilesToScenes from src/utils/configParser.ts: categorize the pool,
    resolve every scene of the config in order, probe durations, and when a
    nonempty global cue list is present distribute it across the scenes. -/
def matchFilesToScenes (videoProbe audioProbe : ExtractedFile → Except String ℚ)
    (parseSubs : ExtractedFile → List SubtitleCue) (config : ProjectConfig)
    (files : List ExtractedFile) (allCues : Option (List SubtitleCue)) :
    Except String (List ProcessedScene) :=
  let cat := categorizeFiles files
  let firstPass := config.scenes.map (resolveScene cat parseSubs allCues.isSome)
  match measureDurations videoProbe audioProbe firstPass with
  | .error e => .error e
  | .ok probed =>
    .ok (match allCues with
         | some cues => if 0 < cues.length then distributeCues cues 0 probed else probed
         | none => probed)

/-- The configured video/audio sync mode (VideoSettings.syncMode). -/
inductive SyncMode
  | trim
  | speed
  deriving DecidableEq

/-- The reconciliation a scene ends up with: untouched, halted at audio end,
    or uniformly accelerated. -/
inductive SyncKind
  | noSync
  | trim
  | speed
  deriving DecidableEq

/-- The per-scene sync decision: which branch was taken, the playback rate
    set on the video element, and the duration the scene occupies. -/
structure SyncDecision where
  kind : SyncKind
  playbackRate : ℚ
  effectiveDuration : ℚ
  deriving DecidableEq

/-- Lines 177-196 of src/utils/canvasProcessor.ts: playbackRate starts at 1
    and effectiveDuration at the video duration; only when audio is present
    (duration above 0) and the video is strictly longer does the configured
    mode apply, retiming in speed mode and halting early in trim mode. -/
def syncDecision (videoDuration audioDuration : ℚ) (syncMode : SyncMode) :
    SyncDecision :=
  if 0 < audioDuration ∧ audioDuration < videoDuration then
    match syncMode with
    | .speed => ⟨.speed, videoDuration / audioDuration, audioDuration⟩
    | .trim => ⟨.trim, 1, audioDuration⟩
  else ⟨.noSync, 1, videoDuration⟩

/-- A scene entry of the parsed JSON document before defaulting: the id may
    be absent (a non-numeric id is outside the model). -/
structure RawScene where
  id : Option Int := none
  video : Option String := none
  audio : Option String := none
  subtitle : Option String := none
  deriving DecidableEq

/-- The scenes field of a structurally parsed document: present but not an
    array (including every falsy value, which fails the same check), or an
    array of scene entries. -/
inductive ScenesField
  | notArray
  | array (ss : List RawScene)
  deriving DecidableEq

/-- The configuration document as seen by parseProjectConfig: text JSON.parse
    rejects, or a parsed value whose scenes field is absent or as above. -/
inductive ConfigDoc
  | malformed
  | parsed (scenesField : Option ScenesField)
  deriving DecidableEq

/-- The index-carrying map of parseProjectConfig: each scene takes its given
    id or, when absent, its 1-based position. -/
def defaultSceneIds : Nat → List RawScene → List SceneConfig
  | _, [] => []
  | i, s :: rest =>
    { id := s.id.getD ((i : Int) + 1), video := s.video, audio := s.audio,
      subtitle := s.subtitle } :: defaultSceneIds (i + 1) rest

/-- parseProjectConfig from src/utils/configParser.ts. The structural check
    is (not parsed.scenes) or (not Array.isArray(parsed.scenes)); an empty
    array is truthy in JS and passes it. Every throw inside the try block is
    caught and rethrown as the single parse error below. -/
def parseProjectConfig : ConfigDoc → Except String ProjectConfig
  | .malformed => .error "Failed to parse JSON configuration file."
  | .parsed none => .error "Failed to parse JSON configuration file."
  | .parsed (some .notArray) => .error "Failed to parse JSON configuration file."
  | .parsed (some (.array ss)) => .ok { scenes := defaultSceneIds 0 ss }

/-- JS Math.round on a nonnegative value: floor of the value plus one half. -/
def jsRound (q : ℚ) : Int :=
  ⌊q + 1 / 2⌋

/-- The per-scene progress value of the FFmpeg path, line 77 of the scene
    processor: Math.round(10 + (i / n) * 60). -/
def ffmpegSceneProgress (n i : Nat) : Int :=
  jsRound (10 + ((i : ℚ) / (n : ℚ)) * 60)

/-- The ordered progress emissions of the FFmpeg processScenes run with n
    valid scenes: 5 on start, one per-scene value, then 75 at concatenation,
    95 while finalizing and 100 on completion. -/
def ffmpegProgressTrace (n : Nat) : List Int :=
  5 :: ((List.range n).map (ffmpegSceneProgress n) ++ [75, 95, 100])

/-- The per-scene progress value of the canvas path, line 77 of
    src/utils/canvasProcessor.ts: Math.round(10 + ((i + 1) / n) * 80). -/
def canvasSceneProgress (n i : Nat) : Int :=
  jsRound (10 + (((i : ℚ) + 1) / (n : ℚ)) * 80)

/-- The ordered progress emissions of the canvas processScenesWithCanvas run
    with n valid scenes: 5 on start, one per-scene value, then 95 while
    finalizing and 100 on completion. -/
def canvasProgressTrace (n : Nat) : List Int :=
  5 :: ((List.range n).map (canvasSceneProgress n) ++ [95, 100])

/-- Lines 132-159 of the scene processor: zero segments throw; a single
    segment is copied byte-for-byte to the final output name; several
    segments are joined by the external concat invocation (stream copy).
    concatExec stands for that external encoder call. -/
def finalizeOutput (concatExec : List (List Nat) → List Nat)
    (outputFiles : List (List Nat)) : Except String (List Nat) :=
  if outputFiles.length = 0 then .error "No scenes were processed successfully"
  else if 1 < outputFiles.length then .ok (concatExec outputFiles)
  else .ok (outputFiles.getD 0 [])

/-- The segment-level skeleton of processScenes: keep the scenes with a
    bound video file, fail when none remain, encode each one (encode stands
    for the per-scene FFmpeg invocation) and hand the segments to the
    multiplexing step. -/
def processScenesModel (encode : ProcessedScene → List Nat)
    (concatExec : List (List Nat) → List Nat)
    (scenes : List ProcessedScene) : Except String (List Nat) :=
  let validScenes := scenes.filter (fun s => s.videoFile.isSome)
  if validScenes.length = 0 then
    .error "No valid scenes with video files found"
  else
    finalizeOutput concatExec (validScenes.map encode)

/-- The cue list a scene carries after distribution (absent means none were
    assigned). -/
def assignedCues (s : ProcessedScene) : List SubtitleCue :=
  s.subtitleCues.getD []

/-- The effective durations of a scene list, in order. -/
def sceneDurations (scenes : List ProcessedScene) : List ℚ :=
  scenes.map effectiveSceneDuration

/-- Sum of the first i entries: the cursor value in front of scene i. -/
def sumTo (ds : List ℚ) (i : Nat) : ℚ :=
  (ds.take i).sum

/- Concrete fixtures shared by witnesses and counterexamples. -/

/-- A video asset whose name fits the positional pattern of scene 1. -/
def wVideoFile : ExtractedFile :=
  ⟨"scene_1.mp4", "videos/scene_1.mp4", [0], .video⟩

/-- The asset of the positional-matching example of the specification. -/
def wClipFile : ExtractedFile :=
  ⟨"clip_scene_2.mp4", "clip_scene_2.mp4", [5], .video⟩

/-- A video asset matching no scene number. -/
def wIntroFile : ExtractedFile :=
  ⟨"intro.mp4", "intro.mp4", [6], .video⟩

/-- An audio asset living in an sfx folder. -/
def wSfxFile : ExtractedFile :=
  ⟨"boom.mp3", "SFX/boom.mp3", [2], .audio⟩

/-- A scene with a probed audio duration of 0 and a video duration of 7. -/
def wZeroAudioScene : ProcessedScene :=
  { id := 1, audioDuration := some 0, duration := some 7 }

/-- C3: the sync decision of the canvas renderer follows the ordered rules:
    no audio or video not longer than audio leaves the video untouched at
    rate 1 whatever the configured mode; a strictly longer video is retimed
    to rate V / A over the audio duration in speed mode and halted at the
    audio duration at rate 1 in trim mode. -/
theorem sync_decision_rules (V A : ℚ) (hV : 0 ≤ V) (hA : 0 ≤ A) :
    ((A = 0 ∨ V ≤ A) → ∀ m, syncDecision V A m = ⟨.noSync, 1, V⟩) ∧
    (0 < A → A < V →
      syncDecision V A .speed = ⟨.speed, V / A, A⟩ ∧
      syncDecision V A .trim = ⟨.trim, 1, A⟩) := by
  constructor
  · intro h m
    have hcond : ¬(0 < A ∧ A < V) := by
      rcases h with h | h
      · rintro ⟨h1, _⟩
        rw [h] at h1
        exact lt_irrefl 0 h1
      · rintro ⟨_, h2⟩
        exact absurd h2 (not_lt.mpr h)
    simp only [syncDecision, if_neg hcond]
  · intro h1 h2
    have hcond : 0 < A ∧ A < V := ⟨h1, h2⟩
    constructor <;> simp only [syncDecision, if_pos hcond]

/-- Witness for sync_decision_rules at the values of the specification
    example, V = 10 and A = 6. -/
theorem sync_decision_rules_witness :
    (0 ≤ (10 : ℚ)) ∧ (0 ≤ (6 : ℚ)) ∧
    (0 < (6 : ℚ) → (6 : ℚ) < 10 →
      syncDecision 10 6 .speed = ⟨.speed, 10 / 6, 6⟩ ∧
      syncDecision 10 6 .trim = ⟨.trim, 1, 6⟩) :=
  ⟨by norm_num, by norm_num,
    (sync_decision_rules 10 6 (by norm_num) (by norm_num)).2⟩

/-- C7: running asset resolution twice on the same scene spec and the same
    categorized pool binds the same video, audio and subtitle assets both
    times; the resolver is a function of the spec and the pool alone. -/
theorem resolution_deterministic (cat : CategorizedFiles)
    (parseSubs : ExtractedFile → List SubtitleCue) (hasGlobalCues : Bool)
    (scene : SceneConfig) (r1 r2 : ProcessedScene)
    (h1 : r1 = resolveScene cat parseSubs hasGlobalCues scene)
    (h2 : r2 = resolveScene cat parseSubs hasGlobalCues scene) :
    r1.videoFile = r2.videoFile ∧ r1.audioFile = r2.audioFile ∧
      r1.subtitleFile = r2.subtitleFile := by
  subst h1
  subst h2
  exact ⟨rfl, rfl, rfl⟩

/-- Witness for resolution_deterministic on a one-asset pool. -/
theorem resolution_deterministic_witness :
    (resolveScene (categorizeFiles [wClipFile]) (fun _ => []) true { id := 2 }).videoFile =
      (resolveScene (categorizeFiles [wClipFile]) (fun _ => []) true { id := 2 }).videoFile :=
  (resolution_deterministic (categorizeFiles [wClipFile]) (fun _ => []) true
    { id := 2 } _ _ rfl rfl).1

/-- C9: when exactly one scene survives the video filter, the multiplexing
    step hands its encoded segment through byte-identically, for every
    encoder and every concat collaborator: no further encoding touches it. -/
theorem single_segment_passthrough (encode : ProcessedScene → List Nat)
    (concatExec : List (List Nat) → List Nat) (scenes : List ProcessedScene)
    (s : ProcessedScene)
    (h : scenes.filter (fun s => s.videoFile.isSome) = [s]) :
    processScenesModel encode concatExec scenes = .ok (encode s) := by
  simp [processScenesModel, h, finalizeOutput]

/-- Witness for single_segment_passthrough: a two-scene project with one
    renderable scene returns that scene's segment unchanged. -/
theorem single_segment_passthrough_witness :
    ([({ id := 1 } : ProcessedScene), { id := 2, videoFile := some wVideoFile }].filter
        (fun s => s.videoFile.isSome) =
      [({ id := 2, videoFile := some wVideoFile } : ProcessedScene)]) ∧
    processScenesModel (fun s => s.id.toNat :: [3, 1, 4]) (fun _ => [])
        [{ id := 1 }, { id := 2, videoFile := some wVideoFile }] =
      .ok [2, 3, 1, 4] :=
  ⟨by decide,
    single_segment_passthrough (fun s => s.id.toNat :: [3, 1, 4]) (fun _ => [])
      [{ id := 1 }, { id := 2, videoFile := some wVideoFile }]
      { id := 2, videoFile := some wVideoFile } (by decide)⟩

/-- C6 counterexample: a structurally valid document whose scene array is
    empty parses successfully (an empty array is truthy in JS, so the
    structural check passes); the claim requires it to fail. -/
theorem empty_scenes_parse_counterexample :
    parseProjectConfig (.parsed (some (.array []))) = .ok { scenes := [] } :=
  rfl

/-- The index-defaulting map keeps the list length. -/
theorem defaultSceneIds_length (k : Nat) (ss : List RawScene) :
    (defaultSceneIds k ss).length = ss.length := by
  induction ss generalizing k with
  | nil => rfl
  | cons s rest ih => simp [defaultSceneIds, ih]

/-- The id produced for position i is the given id, or k + i + 1 when the
    entry has none. -/
theorem defaultSceneIds_id (k i : Nat) (ss : List RawScene) (h : i < ss.length) :
    ((defaultSceneIds k ss).getD i { id := 0 }).id =
      ((ss.getD i {}).id).getD ((k : Int) + (i : Int) + 1) := by
  induction ss generalizing k i with
  | nil => simp at h
  | cons s rest ih =>
    cases i with
    | zero => simp [defaultSceneIds]
    | succ j =>
      have hj : j < rest.length := by simpa using h
      simp only [defaultSceneIds, List.getD_cons_succ]
      rw [ih (k + 1) j hj]
      congr 2
      push_cast
      ring

/-- C6 amended: parsing fails exactly for the malformed documents (text
    JSON.parse rejects, a missing scenes field, a non-array scenes field);
    every document whose scenes field is an array, the empty array included,
    parses successfully, each scene id defaulting to its 1-based position
    when absent. -/
theorem parse_config_amended :
    (parseProjectConfig .malformed).isOk = false ∧
    (parseProjectConfig (.parsed none)).isOk = false ∧
    (parseProjectConfig (.parsed (some .notArray))).isOk = false ∧
    ∀ ss : List RawScene, ∃ cfg : ProjectConfig,
      parseProjectConfig (.parsed (some (.array ss))) = .ok cfg ∧
      cfg.scenes.length = ss.length ∧
      ∀ i, i < ss.length →
        (cfg.scenes.getD i { id := 0 }).id =
          ((ss.getD i {}).id).getD ((i : Int) + 1) := by
  refine ⟨rfl, rfl, rfl, fun ss => ⟨{ scenes := defaultSceneIds 0 ss }, rfl,
    defaultSceneIds_length 0 ss, fun i hi => ?_⟩⟩
  rw [defaultSceneIds_id 0 i ss hi]
  norm_num

/-- Witness for parse_config_amended on a two-scene array whose second entry
    has no id. -/
theorem parse_config_amended_witness :
    (1 < ([{ id := some 7 }, {}] : List RawScene).length) ∧
    ∃ cfg : ProjectConfig,
      parseProjectConfig (.parsed (some (.array [{ id := some 7 }, {}]))) = .ok cfg ∧
      cfg.scenes.length = 2 ∧ (cfg.scenes.getD 1 { id := 0 }).id = 2 := by
  obtain ⟨cfg, h1, h2, h3⟩ := parse_config_amended.2.2.2 [{ id := some 7 }, {}]
  refine ⟨by decide, cfg, h1, h2, ?_⟩
  have := h3 1 (by decide)
  simpa using this

/-- C2 counterexample: a scene whose audio duration probed as 0 and whose
    video duration is 5 has effective duration 0 in the distribution pass,
    not its video duration; its cue window is empty and the cursor does not
    advance, because the JS nullish-coalescing fallback never triggers on 0. -/
theorem effective_duration_counterexample :
    effectiveSceneDuration { id := 1, audioDuration := some 0, duration := some 5 } = 0 ∧
    effectiveSceneDuration { id := 1, audioDuration := some 0, duration := some 5 } ≠ 5 ∧
    distributeCues [⟨1, 2, "hello", false⟩] 0
        [{ id := 1, audioDuration := some 0, duration := some 5 }] =
      [{ id := 1, audioDuration := some 0, duration := some 5 }] := by
  refine ⟨rfl, by norm_num [effectiveSceneDuration], by decide⟩

/-- C2 amended: the effective channel duration of the distribution pass is
    audioDuration when a value is present (0 included), else the video
    duration when present, else 0; in particular a scene with audio duration
    0 keeps an empty cue window and leaves the cursor untouched, regardless
    of its video duration. -/
theorem effective_duration_amended (s : ProcessedScene) :
    (∀ a : ℚ, s.audioDuration = some a → effectiveSceneDuration s = a) ∧
    (s.audioDuration = none → ∀ v : ℚ, s.duration = some v →
      effectiveSceneDuration s = v) ∧
    (s.audioDuration = none → s.duration = none → effectiveSceneDuration s = 0) ∧
    (s.audioDuration = some 0 → ∀ cs t rest,
      distributeCues cs t (s :: rest) = s :: distributeCues cs t rest) := by
  refine ⟨?_, ?_, ?_, ?_⟩
  · intro a h
    simp [effectiveSceneDuration, h]
  · intro h v hv
    simp [effectiveSceneDuration, h, hv]
  · intro h hv
    simp [effectiveSceneDuration, h, hv]
  · intro h cs t rest
    have hz : effectiveSceneDuration s = 0 := by simp [effectiveSceneDuration, h]
    simp [distributeCues, hz]

/-- Witness for effective_duration_amended at a scene with probed audio
    duration 0 and video duration 7. -/
theorem effective_duration_amended_witness :
    wZeroAudioScene.audioDuration = some 0 ∧
    distributeCues [⟨0, 1, "w", false⟩] 0 [wZeroAudioScene] = [wZeroAudioScene] :=
  ⟨rfl, by
    have h := (effective_duration_amended wZeroAudioScene).2.2.2 rfl
      [⟨0, 1, "w", false⟩] 0 []
    simpa [distributeCues] using h⟩

/-- C4 counterexample: one scene binds one video whose duration probe
    rejects; matchFilesToScenes rejects with the probe error instead of
    recovering that channel as duration 0 and returning the scenes. -/
theorem probe_failure_aborts_counterexample :
    matchFilesToScenes (fun _ => .error "Failed to load video metadata")
        (fun _ => .ok 0) (fun _ => []) { scenes := [{ id := 1 }] }
        [wVideoFile] none =
      .error "Failed to load video metadata" := by
  rfl

/-- A joined probe pass rejects when some element rejects, provided every
    element either rejects with that error or resolves. -/
theorem exceptMapAll_err {α β : Type} (f : α → Except String β) (e : String)
    (xs : List α) (x : α) (hx : x ∈ xs)
    (hall : ∀ y ∈ xs, f y = .error e ∨ ∃ b, f y = .ok b)
    (hErr : f x = .error e) :
    exceptMapAll f xs = .error e := by
  induction xs with
  | nil => simp at hx
  | cons y ys ih =>
    rcases hall y (by simp) with hy | ⟨b, hy⟩
    · simp [exceptMapAll, hy]
    · have hxy : x ∈ ys := by
        rcases List.mem_cons.mp hx with rfl | hmem
        · rw [hErr] at hy
          exact absurd hy (by simp)
        · exact hmem
      have := ih hxy (fun z hz => hall z (by simp [hz]))
      simp [exceptMapAll, hy, this]

/-- C4 amended: a duration-probe rejection on a bound video channel is not
    recovered locally: the joined second pass rejects with the probe error,
    so the scene-matching operation fails and the error reaches the caller.
    Only a scene with no bound asset on a channel gets duration 0 there. -/
theorem probe_failure_propagates (e : String)
    (audioProbe : ExtractedFile → Except String ℚ)
    (scenes : List ProcessedScene)
    (h : ∃ s ∈ scenes, s.videoFile.isSome) :
    measureDurations (fun _ => .error e) audioProbe scenes = .error e := by
  obtain ⟨s, hs, hsome⟩ := h
  obtain ⟨f, hf⟩ := Option.isSome_iff_exists.mp hsome
  have hmap : exceptMapAll (fun sc : ProcessedScene =>
      match sc.videoFile with
      | some fl => (fun _ : ExtractedFile => Except.error (ε := String) (α := ℚ) e) fl
      | none => .ok 0) scenes = .error e := by
    refine exceptMapAll_err _ e scenes s hs (fun y _ => ?_) (by rw [hf])
    rcases hy : y.videoFile with _ | g
    · exact Or.inr ⟨0, by simp⟩
    · exact Or.inl (by simp)
  simp only [measureDurations, hmap]

/-- Witness for probe_failure_propagates: one scene with a bound video and a
    probe that rejects. -/
theorem probe_failure_propagates_witness :
    (∃ s ∈ [({ id := 1, videoFile := some wVideoFile } : ProcessedScene)],
      s.videoFile.isSome) ∧
    measureDurations (fun _ => .error "Failed to load video metadata")
        (fun _ => .ok 0) [{ id := 1, videoFile := some wVideoFile }] =
      .error "Failed to load video metadata" :=
  ⟨⟨{ id := 1, videoFile := some wVideoFile }, by simp, rfl⟩,
    probe_failure_propagates "Failed to load video metadata" (fun _ => .ok 0)
      [{ id := 1, videoFile := some wVideoFile }]
      ⟨{ id := 1, videoFile := some wVideoFile }, by simp, rfl⟩⟩

/-- A scan selects the element after a non-matching block when it matches. -/
theorem find?_append_first {α : Type} (p : α → Bool) (pre : List α) (f : α)
    (post : List α) (hf : p f = true) (hpre : ∀ g ∈ pre, p g = false) :
    (pre ++ f :: post).find? p = some f := by
  induction pre with
  | nil => simp [List.find?_cons_of_pos, hf]
  | cons a pre ih =>
    have ha : p a = false := hpre a (by simp)
    rw [List.cons_append, List.find?_cons_of_neg _ (by simp [ha])]
    exact ih (fun g hg => hpre g (by simp [hg]))

/-- C5: the positional fallback selects, in pool order, the first asset
    whose lowercased filename matches one of the three patterns, and selects
    nothing when no asset matches; the asset clip_scene_2.mp4 is selected
    for scene id 2 when the scene spec carries no video reference, and it
    matches neither scene id 20 nor scene id 12. -/
theorem positional_fallback_matching :
    (∀ (pre : List ExtractedFile) (f : ExtractedFile) (post : List ExtractedFile)
      (n : Int), matchesSceneNumber n f = true →
      (∀ g ∈ pre, matchesSceneNumber n g = false) →
      findFileBySceneNumber (pre ++ f :: post) n = some f) ∧
    (∀ (files : List ExtractedFile) (n : Int),
      (∀ g ∈ files, matchesSceneNumber n g = false) →
      findFileBySceneNumber files n = none) ∧
    (∀ (parseSubs : ExtractedFile → List SubtitleCue) (hasGlobalCues : Bool),
      (resolveScene (categorizeFiles [wClipFile]) parseSubs hasGlobalCues
        { id := 2 }).videoFile = some wClipFile) ∧
    findFileBySceneNumber [wClipFile] 20 = none ∧
    findFileBySceneNumber [wClipFile] 12 = none := by
  refine ⟨?_, ?_, ?_, by decide, by decide⟩
  · intro pre f post n hf hpre
    exact find?_append_first _ pre f post hf hpre
  · intro files n hall
    exact List.find?_eq_none.mpr (fun x hx => by simp [hall x hx])
  · intro parseSubs hasGlobalCues
    cases hasGlobalCues <;> rfl

/-- Witness for positional_fallback_matching: a pool whose first asset does
    not match scene 2 and whose second asset does. -/
theorem positional_fallback_matching_witness :
    matchesSceneNumber 2 wClipFile = true ∧
    (∀ g ∈ [wIntroFile], matchesSceneNumber 2 g = false) ∧
    findFileBySceneNumber [wIntroFile, wClipFile] 2 = some wClipFile :=
  ⟨by decide, by decide,
    positional_fallback_matching.1 [wIntroFile] wClipFile [] 2 (by decide) (by decide)⟩

/-- A result of findFileByName is a member of the searched pool. -/
theorem findFileByName_mem {files : List ExtractedFile} {t : String}
    {f : ExtractedFile} (h : findFileByName files t = some f) : f ∈ files := by
  simp only [findFileByName] at h
  split at h
  · exact absurd h (by simp)
  · split at h
    · rename_i g hg
      cases h
      exact List.mem_of_find?_eq_some hg
    · split at h
      · rename_i g hg
        cases h
        exact List.mem_of_find?_eq_some hg
      · exact List.mem_of_find?_eq_some h

/-- A per-channel selection only ever binds a member of its pool. -/
theorem selectChannelFile_mem {pool : List ExtractedFile} {ref : Option String}
    {sceneId : Int} {f : ExtractedFile}
    (h : selectChannelFile pool ref sceneId = some f) : f ∈ pool := by
  unfold selectChannelFile at h
  split at h
  · rename_i g hg
    cases h
    cases ref with
    | none => exact absurd hg (by simp)
    | some r => exact findFileByName_mem hg
  · exact List.mem_of_find?_eq_some h

/-- An audio file on an sfx path lands in the sfx bucket. -/
theorem sfx_mem_of_audio (files : List ExtractedFile) (f : ExtractedFile)
    (hmem : f ∈ files) (ht : f.type = .audio) (hp : isSfxPath f.path = true) :
    f ∈ (categorizeFiles files).sfx := by
  induction files with
  | nil => simp at hmem
  | cons g rest ih =>
    rcases List.mem_cons.mp hmem with rfl | hmem2
    · simp [categorizeFiles, ht, hp]
    · have hrest := ih hmem2
      unfold categorizeFiles
      rcases g.type with _ | _ | _ | _ | _ | _ <;> simp only
      case audio =>
        by_cases hg : isSfxPath g.path = true <;>
          simp [hg, hrest, List.mem_cons]
      all_goals exact hrest

/-- An audio file on an sfx path never lands in the audio bucket. -/
theorem audio_sfx_not_in_audios (files : List ExtractedFile)
    (f : ExtractedFile) (hp : isSfxPath f.path = true) :
    f ∉ (categorizeFiles files).audios := by
  induction files with
  | nil => simp [categorizeFiles]
  | cons g rest ih =>
    unfold categorizeFiles
    rcases g.type with _ | _ | _ | _ | _ | _ <;> simp only
    case audio =>
      by_cases hg : isSfxPath g.path = true
      · simpa [hg] using ih
      · simp only [hg, if_false, Bool.false_eq_true, List.mem_cons]
        rintro (rfl | hmem)
        · exact hg hp
        · exact ih hmem
    all_goals exact ih

/-- The audio binding of a resolved scene is the per-channel selection over
    the audio bucket. -/
theorem resolveScene_audioFile (cat : CategorizedFiles)
    (parseSubs : ExtractedFile → List SubtitleCue) (hasGlobalCues : Bool)
    (scene : SceneConfig) :
    (resolveScene cat parseSubs hasGlobalCues scene).audioFile =
      selectChannelFile cat.audios scene.audio scene.id := by
  cases hasGlobalCues <;> rfl

/-- C10: an audio-typed file whose path contains sfx or effect
    (case-insensitive) is routed to the sfx bucket and not to the audio
    bucket, so the audio channel of every resolved scene, which is selected
    from the audio bucket by name or by positional fallback, can never be
    that file. -/
theorem sfx_audio_excluded (files : List ExtractedFile) (f : ExtractedFile)
    (hmem : f ∈ files) (ht : f.type = .audio) (hp : isSfxPath f.path = true) :
    f ∈ (categorizeFiles files).sfx ∧
    f ∉ (categorizeFiles files).audios ∧
    ∀ (parseSubs : ExtractedFile → List SubtitleCue) (hasGlobalCues : Bool)
      (scene : SceneConfig),
      (resolveScene (categorizeFiles files) parseSubs hasGlobalCues
        scene).audioFile ≠ some f := by
  refine ⟨sfx_mem_of_audio files f hmem ht hp,
    audio_sfx_not_in_audios files f hp, ?_⟩
  intro parseSubs hasGlobalCues scene hcontra
  rw [resolveScene_audioFile] at hcontra
  exact audio_sfx_not_in_audios files f hp (selectChannelFile_mem hcontra)

/-- Witness for sfx_audio_excluded: an audio asset inside an SFX folder. -/
theorem sfx_audio_excluded_witness :
    wSfxFile ∈ [wSfxFile] ∧ wSfxFile.type = .audio ∧
    isSfxPath wSfxFile.path = true ∧
    wSfxFile ∈ (categorizeFiles [wSfxFile]).sfx ∧
    wSfxFile ∉ (categorizeFiles [wSfxFile]).audios :=
  ⟨by simp, rfl, by decide,
    (sfx_audio_excluded [wSfxFile] wSfxFile (by simp) rfl (by decide)).1,
    (sfx_audio_excluded [wSfxFile] wSfxFile (by simp) rfl (by decide)).2.1⟩

/-- Math.round is monotone. -/
theorem jsRound_mono {a b : ℚ} (h : a ≤ b) : jsRound a ≤ jsRound b :=
  Int.floor_le_floor (by linarith)

/-- A lower bound below the argument bounds Math.round from below. -/
theorem le_jsRound {z : Int} {a : ℚ} (h : (z : ℚ) ≤ a) : z ≤ jsRound a :=
  Int.le_floor.mpr (by linarith)

/-- An argument below z + 1/2 rounds to at most z. -/
theorem jsRound_le {z : Int} {a : ℚ} (h : a < (z : ℚ) + 1 / 2) : jsRound a ≤ z := by
  have hlt : jsRound a < z + 1 := Int.floor_lt.mpr (by push_cast; linarith)
  omega

/-- The per-scene FFmpeg progress value is monotone in the scene index. -/
theorem ffmpegSceneProgress_mono (n : Nat) (hn : 1 ≤ n) {i j : Nat}
    (hij : i ≤ j) : ffmpegSceneProgress n i ≤ ffmpegSceneProgress n j := by
  apply jsRound_mono
  have hn' : (0 : ℚ) < n := by exact_mod_cast hn
  have hdiv : (i : ℚ) / n ≤ (j : ℚ) / n :=
    (div_le_div_iff_of_pos_right hn').mpr (by exact_mod_cast hij)
  linarith

/-- The per-scene FFmpeg progress value is at least 5. -/
theorem ffmpegSceneProgress_lb (n i : Nat) : (5 : Int) ≤ ffmpegSceneProgress n i := by
  apply le_jsRound
  have hdiv : (0 : ℚ) ≤ (i : ℚ) / n := by positivity
  push_cast
  linarith

/-- The per-scene FFmpeg progress value stays at most 70 while the scene
    index is in range. -/
theorem ffmpegSceneProgress_ub (n i : Nat) (hn : 1 ≤ n) (hi : i < n) :
    ffmpegSceneProgress n i ≤ 70 := by
  apply jsRound_le
  have hn' : (0 : ℚ) < n := by exact_mod_cast hn
  have hdiv : (i : ℚ) / n < 1 := (div_lt_one hn').mpr (by exact_mod_cast hi)
  push_cast
  nlinarith

/-- The per-scene canvas progress value is monotone in the scene index. -/
theorem canvasSceneProgress_mono (n : Nat) (hn : 1 ≤ n) {i j : Nat}
    (hij : i ≤ j) : canvasSceneProgress n i ≤ canvasSceneProgress n j := by
  apply jsRound_mono
  have hn' : (0 : ℚ) < n := by exact_mod_cast hn
  have hdiv : ((i : ℚ) + 1) / n ≤ ((j : ℚ) + 1) / n := by
    apply (div_le_div_iff_of_pos_right hn').mpr
    have : (i : ℚ) ≤ j := by exact_mod_cast hij
    linarith
  linarith

/-- The per-scene canvas progress value is at least 5. -/
theorem canvasSceneProgress_lb (n i : Nat) : (5 : Int) ≤ canvasSceneProgress n i := by
  apply le_jsRound
  have hdiv : (0 : ℚ) ≤ ((i : ℚ) + 1) / n := by positivity
  push_cast
  linarith

/-- The per-scene canvas progress value stays at most 90 while the scene
    index is in range. -/
theorem canvasSceneProgress_ub (n i : Nat) (hn : 1 ≤ n) (hi : i < n) :
    canvasSceneProgress n i ≤ 90 := by
  apply jsRound_le
  have hn' : (0 : ℚ) < n := by exact_mod_cast hn
  have hle : ((i : ℚ) + 1) / n ≤ 1 := by
    apply (div_le_one hn').mpr
    have : (i : ℚ) + 1 ≤ n := by exact_mod_cast hi
    linarith
  nlinarith

/-- C8: for every run with at least one valid scene, the sequence of
    progress values emitted by the FFmpeg path and by the canvas path is
    monotonically non-decreasing from start to completion; in particular
    every per-scene value sits between the opening 5 and the concatenation
    values that follow it. -/
theorem progress_monotone (n : Nat) (hn : 1 ≤ n) :
    (ffmpegProgressTrace n).Pairwise (· ≤ ·) ∧
    (canvasProgressTrace n).Pairwise (· ≤ ·) := by
  constructor
  · unfold ffmpegProgressTrace
    rw [List.pairwise_cons]
    constructor
    · intro b hb
      rcases List.mem_append.mp hb with hb | hb
      · obtain ⟨i, _, rfl⟩ := List.mem_map.mp hb
        exact ffmpegSceneProgress_lb n i
      · simp only [List.mem_cons, List.not_mem_nil, or_false] at hb
        rcases hb with rfl | rfl | rfl <;> norm_num
    · rw [List.pairwise_append]
      refine ⟨?_, by decide, ?_⟩
      · rw [List.pairwise_map]
        exact (List.pairwise_lt_range n).imp
          (fun hab => ffmpegSceneProgress_mono n hn (le_of_lt hab))
      · intro a ha b hb
        obtain ⟨i, hi, rfl⟩ := List.mem_map.mp ha
        have h70 := ffmpegSceneProgress_ub n i hn (List.mem_range.mp hi)
        simp only [List.mem_cons, List.not_mem_nil, or_false] at hb
        rcases hb with rfl | rfl | rfl <;> omega
  · unfold canvasProgressTrace
    rw [List.pairwise_cons]
    constructor
    · intro b hb
      rcases List.mem_append.mp hb with hb | hb
      · obtain ⟨i, _, rfl⟩ := List.mem_map.mp hb
        exact canvasSceneProgress_lb n i
      · simp only [List.mem_cons, List.not_mem_nil, or_false] at hb
        rcases hb with rfl | rfl <;> norm_num
    · rw [List.pairwise_append]
      refine ⟨?_, by decide, ?_⟩
      · rw [List.pairwise_map]
        exact (List.pairwise_lt_range n).imp
          (fun hab => canvasSceneProgress_mono n hn (le_of_lt hab))
      · intro a ha b hb
        obtain ⟨i, hi, rfl⟩ := List.mem_map.mp ha
        have h90 := canvasSceneProgress_ub n i hn (List.mem_range.mp hi)
        simp only [List.mem_cons, List.not_mem_nil, or_false] at hb
        rcases hb with rfl | rfl <;> omega

/-- Witness for progress_monotone at a three-scene run. -/
theorem progress_monotone_witness :
    1 ≤ 3 ∧ ((ffmpegProgressTrace 3).Pairwise (· ≤ ·) ∧
      (canvasProgressTrace 3).Pairwise (· ≤ ·)) :=
  ⟨by norm_num, progress_monotone 3 (by norm_num)⟩

/-- An empty window receives no cues. -/
theorem windowCues_zero (cs : List SubtitleCue) (t : ℚ) :
    windowCues cs t 0 = [] := by
  unfold windowCues
  have hfil : cs.filter (cueInWindow t 0) = [] := by
    rw [List.filter_eq_nil_iff]
    intro c _
    simp only [cueInWindow, add_zero, decide_eq_true_eq, not_and, not_lt]
    intro h1
    exact h1
  rw [hfil]
  rfl

/-- The cursor in front of the first scene is 0. -/
theorem sumTo_zero (ds : List ℚ) : sumTo ds 0 = 0 := rfl

/-- Peeling one entry off a cursor position. -/
theorem sumTo_cons_succ (d : ℚ) (ds : List ℚ) (i : Nat) :
    sumTo (d :: ds) (i + 1) = d + sumTo ds i := by
  simp [sumTo]

/-- Cursor positions over nonnegative durations are nonnegative. -/
theorem sumTo_nonneg (ds : List ℚ) (hd : ∀ d ∈ ds, 0 ≤ d) (i : Nat) :
    0 ≤ sumTo ds i :=
  List.sum_nonneg (fun x hx => hd x (List.take_subset i ds hx))

/-- The cursor after scene i is the cursor before it plus its duration. -/
theorem sumTo_succ_getD (ds : List ℚ) (i : Nat) (h : i < ds.length) :
    sumTo ds (i + 1) = sumTo ds i + ds.getD i 0 := by
  induction ds generalizing i with
  | nil => simp at h
  | cons d ds ih =>
    cases i with
    | zero => simp [sumTo]
    | succ j =>
      have hj : j < ds.length := by simpa using h
      rw [sumTo_cons_succ, sumTo_cons_succ, ih j hj, List.getD_cons_succ]
      ring

/-- No cursor position exceeds the total duration. -/
theorem sumTo_le_sum (ds : List ℚ) (hd : ∀ d ∈ ds, 0 ≤ d) (i : Nat) :
    sumTo ds i ≤ ds.sum := by
  conv_rhs => rw [← List.take_append_drop i ds]
  rw [List.sum_append]
  have hdrop : 0 ≤ (ds.drop i).sum :=
    List.sum_nonneg (fun x hx => hd x (List.drop_subset i ds hx))
  unfold sumTo
  linarith

/-- The half-open windows of a nonnegative duration list partition the span
    from 0 to the total: every point below the total lies in exactly one
    window. -/
theorem window_exists_unique :
    ∀ (ds : List ℚ), (∀ d ∈ ds, 0 ≤ d) → ∀ x : ℚ, 0 ≤ x → x < ds.sum →
    ∃! i : Nat, i < ds.length ∧ sumTo ds i ≤ x ∧
      x < sumTo ds i + ds.getD i 0 := by
  intro ds
  induction ds with
  | nil =>
    intro _ x hx0 hxs
    exfalso
    simp only [List.sum_nil] at hxs
    linarith
  | cons d ds ih =>
    intro hd x hx0 hxs
    have hd0 : 0 ≤ d := hd d (by simp)
    have hds : ∀ e ∈ ds, 0 ≤ e := fun e he => hd e (by simp [he])
    by_cases hxd : x < d
    · refine ⟨0, ⟨by simp, by simpa [sumTo] using hx0, by simpa [sumTo] using hxd⟩, ?_⟩
      rintro j ⟨hj, hj1, hj2⟩
      rcases j with _ | k
      · rfl
      · exfalso
        rw [sumTo_cons_succ] at hj1
        have hk := sumTo_nonneg ds hds k
        linarith
    · push_neg at hxd
      have hxs' : x - d < ds.sum := by
        rw [List.sum_cons] at hxs
        linarith
      obtain ⟨k, ⟨hk, hk1, hk2⟩, huniq⟩ := ih hds (x - d) (by linarith) hxs'
      refine ⟨k + 1, ⟨by simpa using Nat.succ_lt_succ hk, ?_, ?_⟩, ?_⟩
      · rw [sumTo_cons_succ]
        linarith
      · rw [sumTo_cons_succ, List.getD_cons_succ]
        linarith
      · rintro j ⟨hj, hj1, hj2⟩
        rcases j with _ | k2
        · exfalso
          simp only [sumTo_zero, List.getD_cons_zero, zero_add] at hj2
          linarith
        · rw [sumTo_cons_succ] at hj1 hj2
          rw [List.getD_cons_succ] at hj2
          have hk2 := huniq k2 ⟨Nat.lt_of_succ_lt_succ (by simpa using hj),
            by linarith, by linarith⟩
          omega

/-- Generalized shape of the distribution pass: starting at cursor t, scene
    i of the result carries exactly the window cues at cursor t plus the
    cursor position of scene i, for the window of its effective duration. -/
theorem distributeCues_assigned (cs : List SubtitleCue) :
    ∀ (scenes : List ProcessedScene) (t : ℚ),
    (∀ s ∈ scenes, 0 ≤ effectiveSceneDuration s) →
    (∀ s ∈ scenes, s.subtitleCues = none) →
    (distributeCues cs t scenes).map assignedCues =
      (List.range scenes.length).map (fun i =>
        windowCues cs (t + sumTo (sceneDurations scenes) i)
          ((sceneDurations scenes).getD i 0)) := by
  intro scenes
  induction scenes with
  | nil =>
    intro t _ _
    simp [distributeCues]
  | cons s rest ih =>
    intro t hd hnone
    have hd0 : 0 ≤ effectiveSceneDuration s := hd s (by simp)
    have hdrest : ∀ u ∈ rest, 0 ≤ effectiveSceneDuration u :=
      fun u hu => hd u (by simp [hu])
    have hnrest : ∀ u ∈ rest, u.subtitleCues = none :=
      fun u hu => hnone u (by simp [hu])
    have hlen : (s :: rest).length = rest.length + 1 := rfl
    by_cases hpos : 0 < effectiveSceneDuration s
    · have hstep : distributeCues cs t (s :: rest) =
          { s with subtitleCues := some (windowCues cs t (effectiveSceneDuration s)) } ::
            distributeCues cs (t + effectiveSceneDuration s) rest := by
        simp [distributeCues, hpos]
      rw [hstep, List.map_cons, ih (t + effectiveSceneDuration s) hdrest hnrest,
        hlen, List.range_succ_eq_map, List.map_cons, List.map_map]
      congr 1
      · simp [assignedCues, sceneDurations, sumTo]
      · apply List.map_congr_left
        intro i _
        show windowCues cs (t + effectiveSceneDuration s +
            sumTo (sceneDurations rest) i) ((sceneDurations rest).getD i 0) =
          windowCues cs (t + sumTo (sceneDurations (s :: rest)) (i + 1))
            ((sceneDurations (s :: rest)).getD (i + 1) 0)
        have hsd : sceneDurations (s :: rest) =
            effectiveSceneDuration s :: sceneDurations rest := rfl
        rw [hsd, sumTo_cons_succ, List.getD_cons_succ, add_assoc]
    · have hz : effectiveSceneDuration s = 0 := le_antisymm (not_lt.mp hpos) hd0
      have hstep : distributeCues cs t (s :: rest) =
          s :: distributeCues cs t rest := by
        simp [distributeCues, hpos]
      rw [hstep, List.map_cons, ih t hdrest hnrest, hlen,
        List.range_succ_eq_map, List.map_cons, List.map_map]
      congr 1
      · have hs0 : assignedCues s = [] := by
          simp [assignedCues, hnone s (by simp)]
        have hw : (sceneDurations (s :: rest)).getD 0 0 = 0 := by
          simp [sceneDurations, hz]
        rw [hs0, hw, windowCues_zero]
      · apply List.map_congr_left
        intro i _
        show windowCues cs (t + sumTo (sceneDurations rest) i)
            ((sceneDurations rest).getD i 0) =
          windowCues cs (t + sumTo (sceneDurations (s :: rest)) (i + 1))
            ((sceneDurations (s :: rest)).getD (i + 1) 0)
        have hsd : sceneDurations (s :: rest) =
            effectiveSceneDuration s :: sceneDurations rest := rfl
        rw [hsd, sumTo_cons_succ, List.getD_cons_succ, hz, zero_add]

/-- C1: over scenes with nonnegative effective durations and cues with
    nonnegative start times (the pre-distribution state, in which no scene
    carries cues yet), the distribution step gives scene i exactly the cues
    whose start lies in the half-open window of its cursor, each shifted by
    the window start on both endpoints with order preserved and the end time
    never clamped; the cursor positions are the running sums of the
    effective durations; every cue starting below the final cursor falls in
    exactly one window, and a cue starting at or beyond it falls in none. -/
theorem distribute_cues_windows (scenes : List ProcessedScene)
    (cs : List SubtitleCue)
    (hd : ∀ s ∈ scenes, 0 ≤ effectiveSceneDuration s)
    (hc : ∀ c ∈ cs, 0 ≤ c.startTime)
    (hnone : ∀ s ∈ scenes, s.subtitleCues = none) :
    ((distributeCues cs 0 scenes).map assignedCues =
      (List.range scenes.length).map (fun i =>
        windowCues cs (sumTo (sceneDurations scenes) i)
          ((sceneDurations scenes).getD i 0))) ∧
    (∀ c ∈ cs, c.startTime < (sceneDurations scenes).sum →
      ∃! i : Nat, i < scenes.length ∧
        sumTo (sceneDurations scenes) i ≤ c.startTime ∧
        c.startTime < sumTo (sceneDurations scenes) i +
          (sceneDurations scenes).getD i 0) ∧
    (∀ c ∈ cs, (sceneDurations scenes).sum ≤ c.startTime →
      ∀ i, i < scenes.length →
        ¬(sumTo (sceneDurations scenes) i ≤ c.startTime ∧
          c.startTime < sumTo (sceneDurations scenes) i +
            (sceneDurations scenes).getD i 0)) := by
  have hd' : ∀ d ∈ sceneDurations scenes, 0 ≤ d := by
    intro d hdm
    obtain ⟨s, hs, rfl⟩ := List.mem_map.mp hdm
    exact hd s hs
  have hlen : (sceneDurations scenes).length = scenes.length := by
    simp [sceneDurations]
  refine ⟨?_, ?_, ?_⟩
  · rw [distributeCues_assigned cs scenes 0 hd hnone]
    apply List.map_congr_left
    intro i _
    rw [zero_add]
  · intro c hcm hlt
    have h := window_exists_unique (sceneDurations scenes) hd' c.startTime
      (hc c hcm) hlt
    rwa [hlen] at h
  · intro c hcm hge i hi
    rintro ⟨h1, h2⟩
    have hi' : i < (sceneDurations scenes).length := by rwa [hlen]
    have hsucc := sumTo_succ_getD (sceneDurations scenes) i hi'
    have hle := sumTo_le_sum (sceneDurations scenes) hd' (i + 1)
    linarith

/-- First witness scene: two seconds of audio. -/
def wSceneA : ProcessedScene := { id := 1, audioDuration := some 2, duration := some 2 }

/-- Second witness scene: three seconds of audio. -/
def wSceneB : ProcessedScene := { id := 2, audioDuration := some 3, duration := some 3 }

/-- Witness cue list: two cues inside the five-second span and one beyond it. -/
def wCues : List SubtitleCue :=
  [⟨1, 2, "a", false⟩, ⟨3, 9, "b", false⟩, ⟨10, 11, "c", false⟩]

/-- Witness for distribute_cues_windows on a two-scene timeline. -/
theorem distribute_cues_windows_witness :
    (∀ s ∈ [wSceneA, wSceneB], 0 ≤ effectiveSceneDuration s) ∧
    (∀ c ∈ wCues, 0 ≤ c.startTime) ∧
    (∀ s ∈ [wSceneA, wSceneB], s.subtitleCues = none) ∧
    ((distributeCues wCues 0 [wSceneA, wSceneB]).map assignedCues =
      (List.range ([wSceneA, wSceneB] : List ProcessedScene).length).map (fun i =>
        windowCues wCues (sumTo (sceneDurations [wSceneA, wSceneB]) i)
          ((sceneDurations [wSceneA, wSceneB]).getD i 0))) :=
  ⟨by decide, by decide, by decide,
    (distribute_cues_windows [wSceneA, wSceneB] wCues (by decide) (by decide)
      (by decide)).1⟩
